import Mathlib

namespace Comtrade


/-!
Verification of the retrieval / cache / analytics core of the
`cipf-comtrade` repository (file `src/comtradetools.py`).

The development shallowly embeds the relevant Python functions:

* `split_period` (request planner) — modelled character-exactly on
  `List Char` / `String`;
* `getFinalData` (cache + retry + assembly orchestrator) — modelled as an
  executable interpreter over an explicit cache store, a network oracle and
  an event trace;
* `subtotal` / `rank` / `total_rank_perc` (analytics engine) — DataFrames
  are lists of rows, a row being a valuation of column names in `ℚ`;
* `get_url` logging and the `echo_url` sanitizer of `get_data`.

Machine arithmetic notes: the Python code compares
`(now - mtime) / (24 * 3600) <= CACHE_VALID_DAYS` on exact values; we
multiply the inequality through by the positive constant `24 * 3600` and
state it over `Int`, which is equivalent.  Python dict serialization and
the md5 fingerprint are modelled by using the (injectively serialized)
keyword-argument record itself as the cache key.
-/

/-! ## Constants from the top of `comtradetools.py` -/

def CALLS_PER_PERIOD : Nat := 1

def PERIOD_SECONDS : Nat := 20

/-- Maximum number of retries for a failed call (`MAX_RETRIES = 5`). -/
def MAX_RETRIES : Nat := 5

/-- Base backoff (`MAX_SLEEP = 6` seconds between retries). -/
def MAX_SLEEP : Nat := 6

/-- Number of days cached data stays valid (`CACHE_VALID_DAYS = 60`). -/
def CACHE_VALID_DAYS : Int := 60

def BASE_URL_PREVIEW : String := "https://comtradeapi.un.org/public/v1/preview/"

def BASE_URL_API : String := "https://comtradeapi.un.org/data/v1/get/"

/-! ## The request planner: `split_period` (lines 443-452)

Python's `period.split(",")` on a single-character separator and
`",".join(...)` are modelled character-exactly on `List Char`.
-/

/-- Python `s.split(",")` on the character list of `s`. -/
def splitComma : List Char → List (List Char)
  | [] => [[]]
  | c :: cs =>
    if c = ',' then [] :: splitComma cs
    else
      match splitComma cs with
      | [] => [[c]]
      | g :: gs => (c :: g) :: gs

/-- Python `",".join(groups)` on character lists. -/
def joinComma : List (List Char) → List Char
  | [] => []
  | [g] => g
  | g :: g' :: gs => g ++ ',' :: joinComma (g' :: gs)

/-- Python slicing loop `[period_list[i:i+max] for i in range(0, len, max)]`,
with fuel bounding the recursion (`chunkList` supplies `xs.length`). -/
def chunkAux (n : Nat) : Nat → List α → List (List α)
  | 0, _ => []
  | _ + 1, [] => []
  | fuel + 1, x :: xs => ((x :: xs).take n) :: chunkAux n fuel ((x :: xs).drop n)

/-- Consecutive chunks of size `n` (the Python `range(0, len, max)` slicing). -/
def chunkList (n : Nat) (xs : List α) : List (List α) :=
  chunkAux n xs.length xs

/-- Function `split_period` from `comtradetools.py` lines 443-452: split the
comma-separated period string into comma-joined groups of at most
`max_periods` consecutive periods. -/
def split_period (period : String) (max_periods : Nat) : List String :=
  (chunkList max_periods (splitComma period.data)).map (fun g => String.mk (joinComma g))

/-- The thirteen years 2018..2030 of the spec scenario, as comma-free
period identifiers. -/
def years13 : List (List Char) :=
  ["2018".data, "2019".data, "2020".data, "2021".data, "2022".data, "2023".data,
   "2024".data, "2025".data, "2026".data, "2027".data, "2028".data, "2029".data,
   "2030".data]

/-! ## The retrieval orchestrator `getFinalData` (lines 476-662)

The function is modelled as an executable interpreter.  A DataFrame returned
by the remote API is a list of `Row`s; the network is an oracle mapping the
keyword arguments and a global call counter to a `FetchResult`; the pickle
cache directory is an association list keyed by the serialized keyword
arguments (standing for the md5 fingerprint of `str(kwp) + str(use_alternative)`)
together with the file modification time; `time.sleep` calls and outbound
network calls are recorded in an event trace.  Python's local variable `temp`
is modelled by `TempVar`, whose `unbound` state makes a read before the first
assignment observable (`UnboundLocalError`).
-/

/-- One data row of an API result (the fields the core inspects). -/
structure Row where
  partnerCode : Int
  primaryValue : Int
  deriving DecidableEq, Repr

/-- A DataFrame returned by the remote call site. -/
abbrev Dataset := List Row

/-- Outcome of one call to `comtradeapicall_getFinalData`: it can raise,
return Python `None`, or return a DataFrame. -/
inductive FetchResult where
  | raise
  | retNone
  | ret (d : Dataset)
  deriving DecidableEq, Repr

/-- The keyword arguments of `getFinalData` that remain after the wrapper
pops its own options (`cache`, `retry_if_empty`, `remove_world`,
`period_size`).  `partner2Code = none` models the key being absent,
`some none` models an explicit Python `None`, `some (some v)` a value.
`partnerCode` is only ever read with `kwp.get("partnerCode", None)`, which
identifies absent and `None`.  `rest` holds any further keyword parameters
in serialized form. -/
structure KWP where
  partner2Code : Option (Option Int) := none
  partnerCode : Option Int := none
  period : Option String := none
  rest : List (String × String) := []
  deriving DecidableEq, Repr

/-- Cache fingerprint: the serialized keyword arguments (with `period` set
to the sub-period being requested) together with `use_alternative`, exactly
the data hashed at lines 585-590. -/
abbrev CacheKey := KWP × Bool

/-- The pickle cache directory: fingerprint, file modification time, stored
DataFrame. -/
abbrev Store := List (CacheKey × (Int × Dataset))

/-- Look up the cache file for a fingerprint. -/
def findEntry (s : Store) (k : CacheKey) : Option (Int × Dataset) :=
  (s.find? (fun e => decide (e.1 = k))).map (fun e => e.2)

/-- Model of `os.remove` of the cache file for a fingerprint. -/
def eraseEntry (s : Store) (k : CacheKey) : Store :=
  s.filter (fun e => !(decide (e.1 = k)))

/-- Model of `pickle.dump` into the cache file for a fingerprint (overwrites). -/
def insertEntry (s : Store) (k : CacheKey) (v : Int × Dataset) : Store :=
  (k, v) :: eraseEntry s k

/-- Python exceptions the wrapper can produce. -/
inductive PyErr where
  | valueError (msg : String)
  | ioError (msg : String)
  | uncaughtException
  | unboundLocal
  | fileNotFound
  deriving DecidableEq, Repr

/-- Observable side effects: outbound network calls (with positional
arguments, keyword arguments and global call index) and `time.sleep`
durations in seconds. -/
inductive Event where
  | netCall (pos : List String) (kw : KWP) (idx : Nat)
  | sleep (seconds : Nat)
  deriving DecidableEq, Repr

def isNetCall : Event → Bool
  | .netCall _ _ _ => true
  | .sleep _ => false

/-- Number of outbound network calls recorded in a trace. -/
def netCallCount (evs : List Event) : Nat :=
  (evs.filter isNetCall).length

/-- The Python local `temp` of `getFinalData`: unbound before the first
assignment of the loop body. -/
inductive TempVar where
  | unbound
  | val (d : Dataset)
  deriving DecidableEq, Repr

/-- Lines 593-611: consult the cache file for this sub-period.  Returns the
new `temp`, the `used_cache` flag and the updated cache directory, or the
exception the block raises.  The stale branch removes the file without
assigning `temp`, so the subsequent `temp.size == 0` test reads an unbound
or left-over variable, exactly as in the source.  The validity test
`(now - mtime) / (24*3600) <= CACHE_VALID_DAYS` is stated multiplied
through by `24*3600 > 0`. -/
def cacheCheck (cacheFlag rie : Bool) (now : Int) (key : CacheKey)
    (temp : TempVar) (store : Store) : (Except PyErr (TempVar × Bool)) × Store :=
  if cacheFlag then
    match findEntry store key with
    | some (mtime, data) =>
      let step :=
        if now - mtime ≤ CACHE_VALID_DAYS * (24 * 3600) then
          (TempVar.val data, true, store)
        else
          (temp, false, eraseEntry store key)
      match step.1 with
      | .unbound => (.error .unboundLocal, step.2.2)
      | .val d =>
        if d.length = 0 then
          if rie then
            match findEntry step.2.2 key with
            | some _ => (.ok (.val d, false), eraseEntry step.2.2 key)
            | none => (.error .fileNotFound, step.2.2)
          else (.ok (.val d, step.2.1), step.2.2)
        else (.ok (.val d, step.2.1), step.2.2)
    | none => (.ok (temp, false), store)
  else (.ok (temp, false), store)

/-- Lines 635-642: `while temp is None and RETRY < MAX_RETRIES`, sleeping
`MAX_SLEEP * (RETRY + 1)` before each re-issue.  The fuel argument is
`MAX_RETRIES - retry`, which realizes the loop guard.  A call that raises
inside the loop propagates uncaught. -/
def whileNone (o : KWP → Nat → FetchResult) (kw : KWP) (pos : List String) :
    Nat → Nat → Nat → Option Dataset →
    (Except PyErr (Option Dataset)) × Nat × List Event
  | _, _, calls, some d => (.ok (some d), calls, [])
  | 0, _, calls, none => (.ok none, calls, [])
  | fuel + 1, retry, calls, none =>
    let slp := MAX_SLEEP * (retry + 1)
    match o kw calls with
    | .raise => (.error .uncaughtException, calls + 1,
        [.sleep slp, .netCall pos kw calls])
    | .retNone =>
      let rec1 := whileNone o kw pos fuel (retry + 1) (calls + 1) none
      (rec1.1, rec1.2.1, .sleep slp :: .netCall pos kw calls :: rec1.2.2)
    | .ret d =>
      let rec1 := whileNone o kw pos fuel (retry + 1) (calls + 1) (some d)
      (rec1.1, rec1.2.1, .sleep slp :: .netCall pos kw calls :: rec1.2.2)

/-- Lines 613-651: the fetch-with-retry block executed when the cache was
not used.  The `try` block issues one call; on an exception it sleeps the
constant `MAX_SLEEP` and re-issues once outside any handler (a second
exception propagates).  Then the `while temp is None` loop runs, and a
still-`None` result raises `IOError`. -/
def finishFetch (o : KWP → Nat → FetchResult) (kw : KWP) (pos : List String)
    (retry calls1 : Nat) (temp : Option Dataset) (evs : List Event) :
    (Except PyErr Dataset) × Nat × List Event :=
  let w := whileNone o kw pos (MAX_RETRIES - retry) retry calls1 temp
  (match w.1 with
   | .error e => .error e
   | .ok none => .error (.ioError "Empty result in getFinalData after 5 retries")
   | .ok (some d) => .ok d,
   w.2.1, evs ++ w.2.2)

def fetchBlock (o : KWP → Nat → FetchResult) (kw : KWP) (pos : List String)
    (calls : Nat) : (Except PyErr Dataset) × Nat × List Event :=
  match o kw calls with
  | .raise =>
    match o kw (calls + 1) with
    | .raise => (.error .uncaughtException, calls + 2,
        [.netCall pos kw calls, .sleep MAX_SLEEP, .netCall pos kw (calls + 1)])
    | .retNone => finishFetch o kw pos 1 (calls + 2) none
        [.netCall pos kw calls, .sleep MAX_SLEEP, .netCall pos kw (calls + 1)]
    | .ret d => finishFetch o kw pos 1 (calls + 2) (some d)
        [.netCall pos kw calls, .sleep MAX_SLEEP, .netCall pos kw (calls + 1)]
  | .retNone => finishFetch o kw pos 0 (calls + 1) none [.netCall pos kw calls]
  | .ret d => finishFetch o kw pos 0 (calls + 1) (some d) [.netCall pos kw calls]

deriving instance DecidableEq for Except

/-- Result of the sub-period loop. -/
structure LoopOut where
  res : Except PyErr Dataset
  store : Store
  calls : Nat
  events : List Event
  deriving DecidableEq, Repr

/-- The cache fingerprint used for one sub-period. -/
def mkKey (kwb : KWP) (alt : Bool) (sp : String) : CacheKey :=
  ({ kwb with period := some sp }, alt)

/-- Lines 579-653: the loop over sub-periods.  Each iteration consults the
cache, fetches on a miss, stores a fetched result when caching is on, and
concatenates non-empty results onto the accumulated DataFrame. -/
def runSubperiods (cacheFlag rie alt : Bool) (o : KWP → Nat → FetchResult)
    (pos : List String) (now : Int) (kwb : KWP) :
    List String → TempVar → Dataset → Store → Nat → LoopOut
  | [], _, df, store, calls => ⟨.ok df, store, calls, []⟩
  | sp :: rest, temp, df, store, calls =>
    let kwSp := { kwb with period := some sp }
    let key := mkKey kwb alt sp
    match cacheCheck cacheFlag rie now key temp store with
    | (.error e, store1) => ⟨.error e, store1, calls, []⟩
    | (.ok (temp1, used), store1) =>
      if used then
        match temp1 with
        | .val d =>
          let df1 := if 0 < d.length then df ++ d else df
          runSubperiods cacheFlag rie alt o pos now kwb rest (.val d) df1 store1 calls
        | .unbound => ⟨.ok df, store1, calls, []⟩
      else
        match fetchBlock o kwSp pos calls with
        | (.error e, calls1, evs) => ⟨.error e, store1, calls1, evs⟩
        | (.ok d, calls1, evs) =>
          let store2 := if cacheFlag then insertEntry store1 key (now, d) else store1
          let df1 := if 0 < d.length then df ++ d else df
          let out := runSubperiods cacheFlag rie alt o pos now kwb rest (.val d) df1 store2 calls1
          ⟨out.res, out.store, out.calls, evs ++ out.events⟩

/-- Result of one `getFinalData` call: the returned DataFrame or the raised
exception, the final cache directory, and the event trace. -/
structure RunOut where
  result : Except PyErr Dataset
  store : Store
  events : List Event
  deriving DecidableEq, Repr

/-- Lines 655-661: the world-row normalization applied to the assembled
DataFrame.  `df.columns` contains `partnerCode` exactly when a non-empty
result was concatenated, i.e. when `df` is non-empty. -/
def postProcess (kwb : KWP) (remove_world : Bool) (df : Dataset) : Dataset :=
  if kwb.partnerCode = none ∧ remove_world ∧ df ≠ [] then
    df.filter (fun r => r.partnerCode != 0)
  else df

/-- The body of `getFinalData` after the positional arguments were resolved
and `partner2Code` was defaulted: period check, sub-period loop,
normalization. -/
def gfdRun (pos : List String) (cacheFlag rie remove_world : Bool)
    (period_size : Nat) (alt : Bool) (kwb : KWP)
    (o : KWP → Nat → FetchResult) (now : Int) (store : Store) : RunOut :=
  match kwb.period with
  | none => ⟨.error (.valueError "Period is required"), store, []⟩
  | some per =>
    let out := runSubperiods cacheFlag rie alt o pos now kwb
      (split_period per period_size) .unbound [] store 0
    ⟨match out.res with
     | .error e => .error e
     | .ok df => .ok (postProcess kwb remove_world df),
     out.store, out.events⟩

/-- Lines 476-662: `getFinalData`.  `p` are the positional arguments,
`configKey` is the value `config["comtrade"]["key"]` that `get_api_key`
reads when no positional argument is given, `o` is the network oracle,
`now` the current time in seconds, `store` the cache directory on entry. -/
def getFinalData (p : List String) (configKey : String)
    (cacheFlag rie remove_world : Bool) (period_size : Nat) (alt : Bool)
    (kwp : KWP) (o : KWP → Nat → FetchResult) (now : Int) (store : Store) :
    RunOut :=
  let kwb := if kwp.partner2Code = none
    then { kwp with partner2Code := some (some 0) } else kwp
  match p with
  | [] => gfdRun [configKey] cacheFlag rie remove_world period_size alt kwb o now store
  | [k] => gfdRun [k] cacheFlag rie remove_world period_size alt kwb o now store
  | _ => ⟨.error (.valueError "Only one positional argument is allowed, the API Key"),
      store, []⟩

/-! ## C2: stale cache entries (lines 593-611) -/

/-- A request whose only sub-period is `2020`. -/
def kwpOneSub : KWP := { partner2Code := some (some 0), period := some "2020" }

/-- A cache directory holding one entry for that request, written at time 0
(61 days before the access below, hence older than the 60-day window). -/
def staleStore : Store := [((kwpOneSub, false), (0, [⟨7, 7⟩]))]

/-! ## C9: defaulting of `partner2Code` (lines 561-566) -/

/-- Property of an event: if it is a network call, its keyword arguments
carry the given `partner2Code` value. -/
def eventP2 (q : Option (Option Int)) : Event → Prop
  | .netCall _ kw _ => kw.partner2Code = q
  | .sleep _ => True

/-- The two-sub-period request of the C3 counterexample and witness. -/
def twoSubKwp : KWP := { partner2Code := some (some 0), period := some "2020,2021" }

/-- First-call oracle of the C3 counterexample: the first sub-period
fetches a non-empty dataset, the second an empty one. -/
def cexO1 : KWP → Nat → FetchResult :=
  fun _ i => if i = 0 then .ret [⟨226, 10⟩] else .ret []

/-- Second-call oracle of the C3 counterexample. -/
def cexO2 : KWP → Nat → FetchResult := fun _ _ => .ret [⟨620, 99⟩]

/-- Dataset family for the C3 witness: call `i` fetches one non-empty row. -/
def cexD : Nat → Dataset := fun i => [⟨226, (i : Int) + 10⟩]

/-! ## C5: the analytics engine (lines 684-746)

A DataFrame row is a valuation of column names in `ℚ`; a DataFrame is a
list of rows, and a derived column is the list of its values aligned with
the rows. -/

/-- A row of the analytics DataFrame: a valuation of column names. -/
def DRow : Type := String → ℚ

/-- The tuple of values of the grouping columns for a row (the pandas
group key). -/
def keyOf (groupby : List String) (r : DRow) : List ℚ := groupby.map r

/-- Lines 684-692: `df.groupby(groupby)[col].transform("sum")` — for every
row, the sum of `col` over all rows sharing its group key. -/
def subtotal (df : List DRow) (groupby : List String) (col : String) : List ℚ :=
  df.map (fun r =>
    ((df.filter (fun s => decide (keyOf groupby s = keyOf groupby r))).map
      (fun s => s col)).sum)

/-- Lines 695-703: `df.groupby(rankby)[col].rank(ascending=False,
method="dense").astype(int)` — dense descending rank within each `rankby`
group: 1 plus the number of distinct strictly larger values in the group.
The ranked column is passed as the list of its values (in
`total_rank_perc` it is a freshly assigned column). -/
def rank (df : List DRow) (rankby : List String) (vals : List ℚ) : List Nat :=
  (df.zip vals).map (fun p =>
    1 + (((((df.zip vals).filter
      (fun q => decide (keyOf rankby q.1 = keyOf rankby p.1))).map
        (fun q => q.2)).dedup).filter (fun v => decide (p.2 < v))).length)

/-- Elementwise division of two aligned columns (`df[col] / other`). -/
def colDiv (xs ys : List ℚ) : List ℚ := (xs.zip ys).map (fun p => p.1 / p.2)

/-- The five derived columns assigned by `total_rank_perc`, each aligned
with the input rows (the state of the DataFrame after lines 739-743; the
`prefix` argument only names the columns and the optional final
`drop_duplicates(groupby)` keeps the first row of each group). -/
structure TRP where
  sum : List ℚ
  rank : List Nat
  perc : List ℚ
  upper_sum : List ℚ
  upper_perc : List ℚ

/-- Lines 706-746: `total_rank_perc`.  `rankby` and `percby` default to
`groupby[:-1]` (`percby` is computed but never used, as in the source). -/
def total_rank_perc (df : List DRow) (groupby : List String) (col : String)
    (pfx : String) (rankby : Option (List String)) (percby : Option (List String))
    (drop_duplicates : Bool) : TRP :=
  let rankby := rankby.getD groupby.dropLast
  let _percby := percby.getD groupby.dropLast
  let sums := subtotal df groupby col
  { sum := sums
    rank := rank df rankby sums
    perc := colDiv (df.map (fun r => r col)) (subtotal df groupby.dropLast col)
    upper_sum := subtotal df groupby.dropLast col
    upper_perc := colDiv sums (subtotal df groupby.dropLast col) }

/-- First example row of the C5 counterexample: group key `(0, 0)`,
value 1. -/
def rowA : DRow := fun c => if c = "v" then 1 else 0

/-- Second example row: group key `(0, 1)`, value 3. -/
def rowB : DRow := fun c => if c = "v" then 3 else if c = "b" then 1 else 0

/-- The two-row example DataFrame over columns `a`, `b`, `v`. -/
def exDf : List DRow := [rowA, rowB]

/-! ## C8: the API key is never emitted in cleartext (lines 424-440 and
1665-1726)

`get_url` logs the base URL and at most the first 8 characters of the key;
`get_data`'s `echo_url` path prints
`re.sub("subscription-key=.*", "subscription-key=HIDDEN", resp.url)`, and
since the regex `.*` runs to the end of the line, everything from the
first occurrence of `subscription-key=` on is replaced. -/

/-- Python string slice `s[:n]`. -/
def pySlice (s : String) (n : Nat) : String := String.mk (s.data.take n)

/-- Lines 424-440: `get_url` — picks the preview URL without a key (or with
the placeholder `APIKEYHERE`), the full URL otherwise, and logs the base
URL and `api_key[:8]`.  Returns the URL and the emitted log messages. -/
def get_url (api_key : Option String) : String × List String :=
  let key := if api_key = some "APIKEYHERE" then none else api_key
  let url := if key = none then BASE_URL_PREVIEW else BASE_URL_API
  (url, ["baseURL: " ++ url] ++
    (match key with
     | some k => ["APIKEY: " ++ pySlice k 8]
     | none => []))

/-- Lines 1671-1680: the query parameters of `get_data` in insertion
order, the subscription key last. -/
def buildParams (reporterCode period partnerCode partner2CodePar cmdCode
    flowCode customsCode apiKey : String) : List (String × String) :=
  [("reporterCode", reporterCode), ("period", period),
   ("partnerCode", partnerCode), ("partner2CodePar", partner2CodePar),
   ("cmdCode", cmdCode), ("flowCode", flowCode),
   ("customsCode", customsCode), ("subscription-key", apiKey)]

/-- Query-string encoding `k=v&k=v&...`. -/
def encodeQuery : List (String × String) → String
  | [] => ""
  | [(k, v)] => k ++ "=" ++ v
  | (k, v) :: p :: ps => k ++ "=" ++ v ++ "&" ++ encodeQuery (p :: ps)

/-- The URL `requests.get` issues: base, `?`, encoded parameters. -/
def requestUrl (base : String) (ps : List (String × String)) : String :=
  base ++ "?" ++ encodeQuery ps

def subKeyPat : List Char := "subscription-key=".data

def hiddenRepl : List Char := "subscription-key=HIDDEN".data

/-- Model of `re.sub(pat ++ ".*", repl, s)` for a literal pattern: replace
everything from the first occurrence of `pat` to the end of the string. -/
def replaceFrom (pat repl : List Char) : List Char → List Char
  | [] => []
  | c :: cs =>
    if pat.isPrefixOf (c :: cs) then repl
    else c :: replaceFrom pat repl cs

/-- Line 1725: the sanitized URL echoed when `echo_url` is set. -/
def sanitizeUrl (url : String) : String :=
  String.mk (replaceFrom subKeyPat hiddenRepl url.data)


theorem splitComma_ne_nil (s : List Char) : splitComma s ≠ [] := by
  induction s with
  | nil => simp [splitComma]
  | cons c cs ih =>
    simp only [splitComma]
    split
    · simp
    · cases h : splitComma cs with
      | nil => simp
      | cons g gs => simp

theorem joinComma_cons (g : List Char) (gs : List (List Char)) (h : gs ≠ []) :
    joinComma (g :: gs) = g ++ ',' :: joinComma gs := by
  cases gs with
  | nil => exact absurd rfl h
  | cons g' gs' => rfl

theorem joinComma_splitComma (s : List Char) : joinComma (splitComma s) = s := by
  induction s with
  | nil => rfl
  | cons c cs ih =>
    by_cases hc : c = ','
    · subst hc
      rw [show splitComma (',' :: cs) = [] :: splitComma cs from by simp [splitComma]]
      rw [joinComma_cons _ _ (splitComma_ne_nil cs), ih]
      rfl
    · cases h : splitComma cs with
      | nil => exact absurd h (splitComma_ne_nil cs)
      | cons g gs =>
        rw [show splitComma (c :: cs) = (c :: g) :: gs from by simp [splitComma, hc, h]]
        cases gs with
        | nil =>
          have : cs = g := by rw [← ih, h]; rfl
          simp [joinComma, this]
        | cons g2 gs2 =>
          rw [h] at ih
          exact congrArg (List.cons c) ih

theorem splitComma_append (g : List Char) (s : List Char) (h t : _)
    (hg : ',' ∉ g) (hs : splitComma s = h :: t) :
    splitComma (g ++ s) = (g ++ h) :: t := by
  induction g with
  | nil => simpa using hs
  | cons c g' ih =>
    have hc : c ≠ ',' := fun hc => hg (hc ▸ List.mem_cons_self c g')
    have hg' : ',' ∉ g' := fun hm => hg (List.mem_cons_of_mem _ hm)
    have h2 := ih hg'
    show splitComma (c :: (g' ++ s)) = ((c :: g') ++ h) :: t
    simp only [splitComma, if_neg hc]
    rw [show splitComma (g' ++ s) = (g' ++ h) :: t from h2]
    rfl

theorem splitComma_joinComma (gs : List (List Char)) (hne : gs ≠ [])
    (hcf : ∀ g ∈ gs, ',' ∉ g) : splitComma (joinComma gs) = gs := by
  induction gs with
  | nil => exact absurd rfl hne
  | cons g gs' ih =>
    cases gs' with
    | nil =>
      have hg : ',' ∉ g := hcf g (by simp)
      have : splitComma (g ++ ([] : List Char)) = (g ++ []) :: [] :=
        splitComma_append g [] [] [] hg rfl
      simpa using this
    | cons g2 gs2 =>
      have hg : ',' ∉ g := hcf g (by simp)
      have hrec : splitComma (joinComma (g2 :: gs2)) = g2 :: gs2 :=
        ih (by simp) (fun x hx => hcf x (List.mem_cons_of_mem _ hx))
      have hmid : splitComma (',' :: joinComma (g2 :: gs2)) = [] :: g2 :: gs2 := by
        simp [splitComma, hrec]
      have := splitComma_append g (',' :: joinComma (g2 :: gs2)) [] (g2 :: gs2) hg hmid
      rw [joinComma_cons _ _ (by simp)]
      simpa using this

theorem chunkAux_flatten {α : Type} (n : Nat) (hn : 1 ≤ n) :
    ∀ (fuel : Nat) (xs : List α), xs.length ≤ fuel →
      (chunkAux n fuel xs).flatten = xs := by
  intro fuel
  induction fuel with
  | zero =>
    intro xs hxs
    have : xs = [] := List.length_eq_zero.mp (Nat.le_zero.mp hxs)
    subst this; rfl
  | succ fuel ih =>
    intro xs hxs
    cases xs with
    | nil => rfl
    | cons x xs' =>
      have hd : ((x :: xs').drop n).length ≤ fuel := by
        simp only [List.length_drop, List.length_cons]
        simp only [List.length_cons] at hxs
        omega
      simp only [chunkAux, List.flatten_cons, ih _ hd, List.take_append_drop]

theorem chunkAux_length {α : Type} (n : Nat) (hn : 1 ≤ n) :
    ∀ (fuel : Nat) (xs : List α), xs.length ≤ fuel →
      (chunkAux n fuel xs).length = (xs.length + n - 1) / n := by
  intro fuel
  induction fuel with
  | zero =>
    intro xs hxs
    have : xs = [] := List.length_eq_zero.mp (Nat.le_zero.mp hxs)
    subst this
    simp [chunkAux, Nat.div_eq_of_lt (show n - 1 < n by omega)]
  | succ fuel ih =>
    intro xs hxs
    cases xs with
    | nil => simp [chunkAux, Nat.div_eq_of_lt (show n - 1 < n by omega)]
    | cons x xs' =>
      have hlen : (x :: xs').length = xs'.length + 1 := by simp
      have hd : ((x :: xs').drop n).length ≤ fuel := by
        simp only [List.length_drop, List.length_cons]
        simp only [List.length_cons] at hxs
        omega
      simp only [chunkAux, List.length_cons, ih _ hd, List.length_drop]
      by_cases hle : xs'.length + 1 ≤ n
      · have e0 : xs'.length + 1 - n = 0 := by omega
        have e1 : xs'.length + 1 + n - 1 = (xs'.length + 1 - 1) + n := by omega
        have d1 : (0 + n - 1) / n = 0 := Nat.div_eq_of_lt (by omega)
        have d2 : (xs'.length + 1 - 1) / n = 0 := Nat.div_eq_of_lt (by omega)
        rw [e0, e1, Nat.add_div_right _ (show 0 < n by omega), d1, d2]
      · have e1 : xs'.length + 1 - n + n - 1 = xs'.length := by omega
        have e2 : xs'.length + 1 + n - 1 = xs'.length + n := by omega
        rw [e1, e2, Nat.add_div_right _ (show 0 < n by omega)]

theorem chunkAux_mem {α : Type} (n : Nat) (hn : 1 ≤ n) :
    ∀ (fuel : Nat) (xs : List α), xs.length ≤ fuel →
      ∀ c ∈ chunkAux n fuel xs, c.length ≤ n ∧ c ≠ [] := by
  intro fuel
  induction fuel with
  | zero =>
    intro xs hxs c hc
    have : xs = [] := List.length_eq_zero.mp (Nat.le_zero.mp hxs)
    subst this
    simp [chunkAux] at hc
  | succ fuel ih =>
    intro xs hxs c hc
    cases xs with
    | nil => simp [chunkAux] at hc
    | cons x xs' =>
      have hd : ((x :: xs').drop n).length ≤ fuel := by
        simp only [List.length_drop, List.length_cons]
        simp only [List.length_cons] at hxs
        omega
      simp only [chunkAux, List.mem_cons] at hc
      rcases hc with rfl | hc
      · constructor
        · simp only [List.length_take]
          exact Nat.min_le_left n _
        · have : 0 < (List.take n (x :: xs')).length := by
            simp only [List.length_take]
            simp only [List.length_cons]
            omega
          exact List.length_pos.mp this
      · exact ih _ hd c hc

theorem chunkList_flatten {α : Type} (n : Nat) (hn : 1 ≤ n) (xs : List α) :
    (chunkList n xs).flatten = xs :=
  chunkAux_flatten n hn _ xs le_rfl

theorem chunkList_length {α : Type} (n : Nat) (hn : 1 ≤ n) (xs : List α) :
    (chunkList n xs).length = (xs.length + n - 1) / n :=
  chunkAux_length n hn _ xs le_rfl

theorem chunkList_mem {α : Type} (n : Nat) (hn : 1 ≤ n) (xs : List α) :
    ∀ c ∈ chunkList n xs, c.length ≤ n ∧ c ≠ [] :=
  chunkAux_mem n hn _ xs le_rfl

theorem joinComma_append (a b : List (List Char)) (ha : a ≠ []) (hb : b ≠ []) :
    joinComma (a ++ b) = joinComma a ++ ',' :: joinComma b := by
  induction a with
  | nil => exact absurd rfl ha
  | cons x a' ih =>
    cases a' with
    | nil => simpa using joinComma_cons x b hb
    | cons y a'' =>
      rw [List.cons_append, joinComma_cons x ((y :: a'') ++ b) (by simp),
        joinComma_cons x (y :: a'') (by simp), ih (by simp)]
      simp [List.append_assoc]

theorem joinComma_map_joinComma (cs : List (List (List Char)))
    (h : ∀ c ∈ cs, c ≠ []) :
    joinComma (cs.map joinComma) = joinComma cs.flatten := by
  induction cs with
  | nil => rfl
  | cons c cs' ih =>
    cases cs' with
    | nil => simp [joinComma]
    | cons c2 cs2 =>
      have hc : c ≠ [] := h c (by simp)
      have hfl : (c2 :: cs2).flatten ≠ [] := by
        have hc2 : c2 ≠ [] := h c2 (by simp)
        simp only [List.flatten_cons]
        intro hcontra
        exact hc2 (List.append_eq_nil.mp hcontra).1
      rw [List.map_cons, joinComma_cons _ _ (by simp),
        ih (fun x hx => h x (List.mem_cons_of_mem _ hx)),
        show (c :: c2 :: cs2).flatten = c ++ (c2 :: cs2).flatten from rfl,
        joinComma_append c ((c2 :: cs2).flatten) hc hfl]

/-- C1: for a period string made of `L` comma-separated comma-free identifiers
and any maximum group size `N ≥ 1`, `split_period` returns `ceil(L/N)`
comma-joined groups, each of at most `N` consecutive periods, preserving the
original order with no period omitted or duplicated, and joining the groups
with commas reproduces the original string. -/
theorem split_period_correct (ps : List (List Char)) (n : Nat)
    (hne : ps ≠ []) (hn : 1 ≤ n) (hcf : ∀ g ∈ ps, ',' ∉ g) :
    (split_period (String.mk (joinComma ps)) n).length = (ps.length + n - 1) / n ∧
    (split_period (String.mk (joinComma ps)) n).map (fun s => splitComma s.data) =
      chunkList n ps ∧
    (∀ s ∈ split_period (String.mk (joinComma ps)) n, (splitComma s.data).length ≤ n) ∧
    ((split_period (String.mk (joinComma ps)) n).map (fun s => splitComma s.data)).flatten
      = ps ∧
    String.mk (joinComma ((split_period (String.mk (joinComma ps)) n).map String.data)) =
      String.mk (joinComma ps) := by
  have hsplit : splitComma (String.mk (joinComma ps)).data = ps :=
    splitComma_joinComma ps hne hcf
  have hunfold : split_period (String.mk (joinComma ps)) n
      = (chunkList n ps).map (fun g => String.mk (joinComma g)) := by
    rw [split_period, hsplit]
  have hchunkmem : ∀ c ∈ chunkList n ps, c ≠ [] :=
    fun c hc => (chunkList_mem n hn ps c hc).2
  have hchunkcf : ∀ c ∈ chunkList n ps, ∀ g ∈ c, ',' ∉ g := by
    intro c hc g hg
    apply hcf
    rw [← chunkList_flatten n hn ps]
    exact List.mem_flatten.mpr ⟨c, hc, hg⟩
  have hmap : (split_period (String.mk (joinComma ps)) n).map (fun s => splitComma s.data)
      = chunkList n ps := by
    rw [hunfold, List.map_map]
    have hcongr : ∀ c ∈ chunkList n ps,
        ((fun s => splitComma s.data) ∘ fun g => String.mk (joinComma g)) c = id c := by
      intro c hc
      simp only [Function.comp_apply, id]
      exact splitComma_joinComma c (hchunkmem c hc) (hchunkcf c hc)
    rw [List.map_congr_left hcongr, List.map_id]
  refine ⟨?_, hmap, ?_, ?_, ?_⟩
  · rw [hunfold, List.length_map]
    exact chunkList_length n hn ps
  · intro s hs
    rw [hunfold] at hs
    rcases List.mem_map.mp hs with ⟨c, hc, rfl⟩
    have hsc : splitComma (String.mk (joinComma c)).data = c :=
      splitComma_joinComma c (hchunkmem c hc) (hchunkcf c hc)
    rw [hsc]
    exact (chunkList_mem n hn ps c hc).1
  · rw [hmap]
    exact chunkList_flatten n hn ps
  · apply congrArg String.mk
    rw [hunfold, List.map_map]
    have hdm : (chunkList n ps).map (String.data ∘ fun g => String.mk (joinComma g))
        = (chunkList n ps).map joinComma :=
      List.map_congr_left (fun c _ => rfl)
    rw [hdm, joinComma_map_joinComma _ hchunkmem, chunkList_flatten n hn ps]

set_option maxRecDepth 8000 in
/-- Witness for C1: the 13-year period list with group size 12 yields two
groups, the first twelve years and the thirteenth alone. -/
theorem split_period_correct_witness :
    (years13 ≠ [] ∧ 1 ≤ 12 ∧ ∀ g ∈ years13, ',' ∉ g) ∧
    (split_period (String.mk (joinComma years13)) 12).length = (years13.length + 12 - 1) / 12 ∧
    split_period "2018,2019,2020,2021,2022,2023,2024,2025,2026,2027,2028,2029,2030" 12 =
      ["2018,2019,2020,2021,2022,2023,2024,2025,2026,2027,2028,2029", "2030"] :=
  ⟨⟨by decide, by decide, by decide⟩,
   (split_period_correct years13 12 (by decide) (by decide) (by decide)).1,
   by decide⟩

/-- C2 (code bug evidence): when the cache entry for the first sub-period is
older than the validity window, `getFinalData` deletes the file (final store
`[]`) and never returns the stale dataset, but it then evaluates
`temp.size == 0` with the local `temp` still unassigned and crashes with
`UnboundLocalError` — making zero network calls instead of the fresh call
the specification promises. -/
theorem getFinalData_stale_cache_crashes :
    getFinalData ["k"] "cfg" true true false 12 false kwpOneSub
        (fun _ _ => .ret [⟨226, 1⟩]) (61 * 86400) staleStore =
      ⟨.error .unboundLocal, [], []⟩ ∧
    netCallCount (getFinalData ["k"] "cfg" true true false 12 false kwpOneSub
        (fun _ _ => .ret [⟨226, 1⟩]) (61 * 86400) staleStore).events = 0 :=
  ⟨by decide, by decide⟩

/-! ## C7: the period parameter is mandatory (lines 568-571) -/

/-- C7: a call without a period fails with a `ValueError` before touching
the network or the cache: the trace is empty and the store is unchanged. -/
theorem getFinalData_period_mandatory (p : List String) (configKey : String)
    (cacheFlag rie rw : Bool) (n : Nat) (alt : Bool) (kwp : KWP)
    (o : KWP → Nat → FetchResult) (now : Int) (store : Store)
    (hper : kwp.period = none) :
    ∃ msg, getFinalData p configKey cacheFlag rie rw n alt kwp o now store =
      ⟨.error (.valueError msg), store, []⟩ := by
  have hkwb : (if kwp.partner2Code = none
      then { kwp with partner2Code := some (some 0) } else kwp).period = none := by
    by_cases hp2 : kwp.partner2Code = none <;> simp [hp2, hper]
  rcases p with _ | ⟨k1, _ | ⟨k2, rest⟩⟩
  · exact ⟨"Period is required", by simp [getFinalData, gfdRun, hkwb]⟩
  · exact ⟨"Period is required", by simp [getFinalData, gfdRun, hkwb]⟩
  · exact ⟨"Only one positional argument is allowed, the API Key", rfl⟩

/-- Witness for C7 at a concrete call. -/
theorem getFinalData_period_mandatory_witness :
    (KWP.period {} = none) ∧
    ∃ msg, getFinalData ["k"] "cfg" true true false 12 false {}
        (fun _ _ => .retNone) 0 [] = ⟨.error (.valueError msg), [], []⟩ :=
  ⟨rfl, getFinalData_period_mandatory ["k"] "cfg" true true false 12 false {}
    (fun _ _ => .retNone) 0 [] rfl⟩

/-! ## C10: positional arguments (lines 529-537) -/

/-- C10: more than one positional argument raises a `ValueError` before any
network or cache activity; with zero positional arguments the key from the
configuration file is used as the single positional argument. -/
theorem getFinalData_positional_args (configKey : String) (cacheFlag rie rw : Bool)
    (n : Nat) (alt : Bool) (kwp : KWP) (o : KWP → Nat → FetchResult)
    (now : Int) (store : Store) :
    (∀ p : List String, 2 ≤ p.length →
      getFinalData p configKey cacheFlag rie rw n alt kwp o now store =
        ⟨.error (.valueError "Only one positional argument is allowed, the API Key"),
          store, []⟩) ∧
    getFinalData [] configKey cacheFlag rie rw n alt kwp o now store =
      getFinalData [configKey] configKey cacheFlag rie rw n alt kwp o now store := by
  constructor
  · intro p hp
    rcases p with _ | ⟨k1, _ | ⟨k2, rest⟩⟩
    · simp at hp
    · simp at hp
    · rfl
  · rfl

/-- Witness for C10 at a concrete call with two positional arguments. -/
theorem getFinalData_positional_args_witness :
    (2 ≤ (["a", "b"] : List String).length) ∧
    getFinalData ["a", "b"] "cfg" true true false 12 false {}
        (fun _ _ => .retNone) 0 [] =
      ⟨.error (.valueError "Only one positional argument is allowed, the API Key"),
        [], []⟩ :=
  ⟨by decide, (getFinalData_positional_args "cfg" true true false 12 false {}
    (fun _ _ => .retNone) 0 []).1 ["a", "b"] (by decide)⟩

theorem whileNone_eventP2 (o : KWP → Nat → FetchResult) (kw : KWP)
    (pos : List String) :
    ∀ (fuel retry calls : Nat) (temp : Option Dataset),
      ∀ ev ∈ (whileNone o kw pos fuel retry calls temp).2.2,
        eventP2 kw.partner2Code ev := by
  intro fuel
  induction fuel with
  | zero =>
    intro retry calls temp ev hev
    cases temp <;> simp [whileNone] at hev
  | succ fuel ih =>
    intro retry calls temp ev hev
    cases temp with
    | some d => simp [whileNone] at hev
    | none =>
      simp only [whileNone] at hev
      rcases ho : o kw calls with _ | _ | d <;> rw [ho] at hev <;>
        simp only [List.mem_cons, List.not_mem_nil, or_false] at hev
      · rcases hev with rfl | rfl
        · trivial
        · rfl
      · rcases hev with rfl | rfl | hev
        · trivial
        · rfl
        · exact ih _ _ _ ev hev
      · rcases hev with rfl | rfl
        · trivial
        · rfl

theorem finishFetch_events (o : KWP → Nat → FetchResult) (kw : KWP)
    (pos : List String) (retry calls1 : Nat) (temp : Option Dataset)
    (evs : List Event) :
    (finishFetch o kw pos retry calls1 temp evs).2.2 =
      evs ++ (whileNone o kw pos (MAX_RETRIES - retry) retry calls1 temp).2.2 := rfl

theorem fetchBlock_eventP2 (o : KWP → Nat → FetchResult) (kw : KWP)
    (pos : List String) (calls : Nat) :
    ∀ ev ∈ (fetchBlock o kw pos calls).2.2, eventP2 kw.partner2Code ev := by
  intro ev hev
  simp only [fetchBlock] at hev
  rcases ho : o kw calls with _ | _ | d <;> rw [ho] at hev
  · rcases ho2 : o kw (calls + 1) with _ | _ | d2 <;> rw [ho2] at hev <;>
      simp only [finishFetch_events, List.mem_append, List.mem_cons,
        List.mem_singleton, List.not_mem_nil, or_false] at hev
    · rcases hev with rfl | rfl | rfl
      · rfl
      · trivial
      · rfl
    · rcases hev with (rfl | rfl | rfl) | hev
      · rfl
      · trivial
      · rfl
      · exact whileNone_eventP2 o kw pos _ _ _ _ ev hev
    · rcases hev with (rfl | rfl | rfl) | hev
      · rfl
      · trivial
      · rfl
      · exact whileNone_eventP2 o kw pos _ _ _ _ ev hev
  · simp only [finishFetch_events, List.mem_append, List.mem_singleton] at hev
    rcases hev with rfl | hev
    · rfl
    · exact whileNone_eventP2 o kw pos _ _ _ _ ev hev
  · simp only [finishFetch_events, List.mem_append, List.mem_singleton] at hev
    rcases hev with rfl | hev
    · rfl
    · exact whileNone_eventP2 o kw pos _ _ _ _ ev hev

theorem runSubperiods_eventP2 (cacheFlag rie alt : Bool)
    (o : KWP → Nat → FetchResult) (pos : List String) (now : Int) (kwb : KWP) :
    ∀ (sps : List String) (temp : TempVar) (df : Dataset) (store : Store)
      (calls : Nat),
      ∀ ev ∈ (runSubperiods cacheFlag rie alt o pos now kwb
          sps temp df store calls).events,
        eventP2 kwb.partner2Code ev := by
  intro sps
  induction sps with
  | nil => intro temp df store calls ev hev; simp [runSubperiods] at hev
  | cons sp rest ih =>
    intro temp df store calls ev hev
    simp only [runSubperiods] at hev
    rcases hcc : cacheCheck cacheFlag rie now (mkKey kwb alt sp) temp store with
      ⟨cc, store1⟩
    rw [hcc] at hev
    rcases cc with e | ⟨temp1, used⟩
    · simp at hev
    · rcases used with _ | _
      · simp only [Bool.false_eq_true, if_false] at hev
        rcases hfb : fetchBlock o { kwb with period := some sp } pos calls with
          ⟨fr, calls1, evs⟩
        rw [hfb] at hev
        rcases fr with e | d
        · simp only at hev
          have hP := fetchBlock_eventP2 o { kwb with period := some sp } pos calls ev
          rw [hfb] at hP
          exact hP hev
        · simp only [List.mem_append] at hev
          rcases hev with hev | hev
          · have hP := fetchBlock_eventP2 o { kwb with period := some sp } pos calls ev
            rw [hfb] at hP
            exact hP (by simpa using hev)
          · exact ih _ _ _ _ ev hev
      · simp only [if_true] at hev
        rcases temp1 with _ | d
        · simp at hev
        · exact ih _ _ _ _ ev hev

theorem gfdRun_eventP2 (pos : List String) (cacheFlag rie rw : Bool) (n : Nat)
    (alt : Bool) (kwb : KWP) (o : KWP → Nat → FetchResult) (now : Int)
    (store : Store) :
    ∀ ev ∈ (gfdRun pos cacheFlag rie rw n alt kwb o now store).events,
      eventP2 kwb.partner2Code ev := by
  intro ev hev
  simp only [gfdRun] at hev
  rcases hper : kwb.period with _ | per <;> rw [hper] at hev
  · simp at hev
  · exact runSubperiods_eventP2 cacheFlag rie alt o pos now kwb
      (split_period per n) .unbound [] store 0 ev hev

theorem getFinalData_eventP2 (p : List String) (configKey : String)
    (cacheFlag rie rw : Bool) (n : Nat) (alt : Bool) (kwp : KWP)
    (o : KWP → Nat → FetchResult) (now : Int) (store : Store) :
    ∀ ev ∈ (getFinalData p configKey cacheFlag rie rw n alt kwp o now store).events,
      eventP2 (if kwp.partner2Code = none then some (some 0)
        else kwp.partner2Code) ev := by
  have hproj : ∀ (q : KWP),
      ((if kwp.partner2Code = none then { kwp with partner2Code := some (some 0) }
        else kwp) : KWP).partner2Code =
        (if kwp.partner2Code = none then some (some 0) else kwp.partner2Code) := by
    intro _
    by_cases hc : kwp.partner2Code = none <;> simp [hc]
  intro ev hev
  rcases p with _ | ⟨k1, _ | ⟨k2, rest⟩⟩
  · have h := gfdRun_eventP2 [configKey] cacheFlag rie rw n alt
      (if kwp.partner2Code = none then { kwp with partner2Code := some (some 0) }
        else kwp) o now store ev hev
    rwa [hproj kwp] at h
  · have h := gfdRun_eventP2 [k1] cacheFlag rie rw n alt
      (if kwp.partner2Code = none then { kwp with partner2Code := some (some 0) }
        else kwp) o now store ev hev
    rwa [hproj kwp] at h
  · simp [getFinalData] at hev

/-- C9: a call whose keyword arguments lack `partner2Code` behaves exactly
like the same call with `partner2Code = 0`: the wrapper inserts the world
aggregate before computing the cache fingerprint and before issuing any
remote request, and every recorded network call of such a run carries
`partner2Code = 0`. -/
theorem getFinalData_partner2Code_default (p : List String) (configKey : String)
    (cacheFlag rie rw : Bool) (n : Nat) (alt : Bool) (kwp : KWP)
    (o : KWP → Nat → FetchResult) (now : Int) (store : Store) :
    getFinalData p configKey cacheFlag rie rw n alt
        { kwp with partner2Code := none } o now store =
      getFinalData p configKey cacheFlag rie rw n alt
        { kwp with partner2Code := some (some 0) } o now store ∧
    ∀ ev ∈ (getFinalData p configKey cacheFlag rie rw n alt
        { kwp with partner2Code := none } o now store).events,
      eventP2 (some (some 0)) ev := by
  refine ⟨rfl, ?_⟩
  intro ev hev
  exact getFinalData_eventP2 p configKey cacheFlag rie rw n alt
    { kwp with partner2Code := none } o now store ev hev

/-- Witness for C9 at a concrete call. -/
theorem getFinalData_partner2Code_default_witness :
    getFinalData ["k"] "cfg" true true false 12 false
        { partner2Code := none, period := some "2020" }
        (fun _ _ => .ret [⟨226, 5⟩]) 0 [] =
      getFinalData ["k"] "cfg" true true false 12 false
        { partner2Code := some (some 0), period := some "2020" }
        (fun _ _ => .ret [⟨226, 5⟩]) 0 [] :=
  (getFinalData_partner2Code_default ["k"] "cfg" true true false 12 false
    { period := some "2020" } (fun _ _ => .ret [⟨226, 5⟩]) 0 []).1

/-! ## C6: opt-in removal of the world aggregate row (lines 655-661) -/

theorem postProcess_remove_world (kwb : KWP) (df : Dataset)
    (hpc : kwb.partnerCode = none) :
    postProcess kwb true df =
      (postProcess kwb false df).filter (fun r => r.partnerCode != 0) := by
  cases df with
  | nil => simp [postProcess]
  | cons r rs => simp [postProcess, hpc]

theorem gfdRun_remove_world (pos : List String) (cacheFlag rie : Bool) (n : Nat)
    (alt : Bool) (kwb : KWP) (o : KWP → Nat → FetchResult) (now : Int)
    (store : Store) (hpc : kwb.partnerCode = none) :
    (gfdRun pos cacheFlag rie true n alt kwb o now store).result =
      (gfdRun pos cacheFlag rie false n alt kwb o now store).result.map
        (fun df => df.filter (fun r => r.partnerCode != 0)) ∧
    (gfdRun pos cacheFlag rie true n alt kwb o now store).store =
      (gfdRun pos cacheFlag rie false n alt kwb o now store).store ∧
    (gfdRun pos cacheFlag rie true n alt kwb o now store).events =
      (gfdRun pos cacheFlag rie false n alt kwb o now store).events := by
  simp only [gfdRun]
  rcases hper : kwb.period with _ | per
  · exact ⟨rfl, rfl, rfl⟩
  · refine ⟨?_, rfl, rfl⟩
    dsimp only
    rcases hres : (runSubperiods cacheFlag rie alt o pos now kwb
        (split_period per n) .unbound [] store 0).res with e | df
    · rfl
    · exact congrArg Except.ok (postProcess_remove_world kwb df hpc)

/-- C6: with the partner dimension unconstrained and `remove_world=True`,
the returned dataset is exactly the dataset of the same call without world
removal with all `partnerCode = 0` rows dropped (other rows are kept, and
cache contents and network activity are unchanged); without
`remove_world` no row is dropped — the normalization is opt-in. -/
theorem getFinalData_remove_world (p : List String) (configKey : String)
    (cacheFlag rie : Bool) (n : Nat) (alt : Bool) (kwp : KWP)
    (o : KWP → Nat → FetchResult) (now : Int) (store : Store)
    (hpc : kwp.partnerCode = none) :
    (getFinalData p configKey cacheFlag rie true n alt kwp o now store).result =
      (getFinalData p configKey cacheFlag rie false n alt kwp o now store).result.map
        (fun df => df.filter (fun r => r.partnerCode != 0)) ∧
    (getFinalData p configKey cacheFlag rie true n alt kwp o now store).store =
      (getFinalData p configKey cacheFlag rie false n alt kwp o now store).store ∧
    (getFinalData p configKey cacheFlag rie true n alt kwp o now store).events =
      (getFinalData p configKey cacheFlag rie false n alt kwp o now store).events ∧
    ∀ df, (getFinalData p configKey cacheFlag rie true n alt kwp o now store).result
        = .ok df → ∀ r ∈ df, r.partnerCode ≠ 0 := by
  have hkw : ((if kwp.partner2Code = none
      then { kwp with partner2Code := some (some 0) } else kwp) : KWP).partnerCode
      = none := by
    by_cases hc : kwp.partner2Code = none <;> simp [hc, hpc]
  have main : ∀ pos : List String,
      (gfdRun pos cacheFlag rie true n alt
        (if kwp.partner2Code = none then { kwp with partner2Code := some (some 0) }
          else kwp) o now store).result =
      (gfdRun pos cacheFlag rie false n alt
        (if kwp.partner2Code = none then { kwp with partner2Code := some (some 0) }
          else kwp) o now store).result.map
        (fun df => df.filter (fun r => r.partnerCode != 0)) ∧
      (gfdRun pos cacheFlag rie true n alt
        (if kwp.partner2Code = none then { kwp with partner2Code := some (some 0) }
          else kwp) o now store).store =
      (gfdRun pos cacheFlag rie false n alt
        (if kwp.partner2Code = none then { kwp with partner2Code := some (some 0) }
          else kwp) o now store).store ∧
      (gfdRun pos cacheFlag rie true n alt
        (if kwp.partner2Code = none then { kwp with partner2Code := some (some 0) }
          else kwp) o now store).events =
      (gfdRun pos cacheFlag rie false n alt
        (if kwp.partner2Code = none then { kwp with partner2Code := some (some 0) }
          else kwp) o now store).events :=
    fun pos => gfdRun_remove_world pos cacheFlag rie n alt _ o now store hkw
  have noWorld : ∀ (a b : Except PyErr Dataset),
      a = b.map (fun df => df.filter (fun r => r.partnerCode != 0)) →
      ∀ df, a = .ok df → ∀ r ∈ df, r.partnerCode ≠ 0 := by
    intro a b hab df hdf r hr
    subst hab
    rcases b with e | df0
    · simp [Except.map] at hdf
    · simp only [Except.map, Except.ok.injEq] at hdf
      subst hdf
      have := (List.mem_filter.mp hr).2
      simpa using this
  rcases p with _ | ⟨k1, _ | ⟨k2, rest⟩⟩
  · exact ⟨(main [configKey]).1, (main [configKey]).2.1, (main [configKey]).2.2,
      noWorld _ _ (main [configKey]).1⟩
  · exact ⟨(main [k1]).1, (main [k1]).2.1, (main [k1]).2.2,
      noWorld _ _ (main [k1]).1⟩
  · exact ⟨rfl, rfl, rfl, fun df hdf => absurd hdf (fun h => Except.noConfusion h)⟩

/-- Witness for C6: partners `{0, 226, 620}` with world removal yield
`{226, 620}`; without removal all three rows are returned. -/
theorem getFinalData_remove_world_witness :
    (KWP.partnerCode { partner2Code := some (some 0), period := some "2020" } = none) ∧
    (getFinalData ["k"] "cfg" false true true 12 false
        { partner2Code := some (some 0), period := some "2020" }
        (fun _ _ => .ret [⟨0, 100⟩, ⟨226, 30⟩, ⟨620, 70⟩]) 0 []).result =
      (getFinalData ["k"] "cfg" false true false 12 false
        { partner2Code := some (some 0), period := some "2020" }
        (fun _ _ => .ret [⟨0, 100⟩, ⟨226, 30⟩, ⟨620, 70⟩]) 0 []).result.map
        (fun df => df.filter (fun r => r.partnerCode != 0)) ∧
    (getFinalData ["k"] "cfg" false true true 12 false
        { partner2Code := some (some 0), period := some "2020" }
        (fun _ _ => .ret [⟨0, 100⟩, ⟨226, 30⟩, ⟨620, 70⟩]) 0 []).result =
      .ok [⟨226, 30⟩, ⟨620, 70⟩] ∧
    (getFinalData ["k"] "cfg" false true false 12 false
        { partner2Code := some (some 0), period := some "2020" }
        (fun _ _ => .ret [⟨0, 100⟩, ⟨226, 30⟩, ⟨620, 70⟩]) 0 []).result =
      .ok [⟨0, 100⟩, ⟨226, 30⟩, ⟨620, 70⟩] :=
  ⟨rfl,
   (getFinalData_remove_world ["k"] "cfg" false true 12 false
     { partner2Code := some (some 0), period := some "2020" }
     (fun _ _ => .ret [⟨0, 100⟩, ⟨226, 30⟩, ⟨620, 70⟩]) 0 [] rfl).1,
   by decide, by decide⟩

/-! ## C4: retry, backoff and exhaustion (lines 613-648) -/

/-- Counterexample to C4 as stated: with a remote call site that returns an
empty (`None`) result on every attempt, `getFinalData` issues 6 network
calls (1 initial + `MAX_RETRIES` re-issues), exceeding the claimed bound of
at most 5 attempts; and with a call site that raises on every attempt, the
second exception propagates as-is instead of an I/O failure, after only 2
attempts and one constant-length sleep. -/
theorem getFinalData_retry_claim_counterexample :
    netCallCount (getFinalData ["k"] "cfg" false true false 12 false kwpOneSub
      (fun _ _ => .retNone) 0 []).events = 6 ∧
    ¬ netCallCount (getFinalData ["k"] "cfg" false true false 12 false kwpOneSub
      (fun _ _ => .retNone) 0 []).events ≤ MAX_RETRIES ∧
    (getFinalData ["k"] "cfg" false true false 12 false kwpOneSub
      (fun _ _ => .raise) 0 []).result = .error .uncaughtException ∧
    netCallCount (getFinalData ["k"] "cfg" false true false 12 false kwpOneSub
      (fun _ _ => .raise) 0 []).events = 2 :=
  ⟨by decide, by decide, by decide, by decide⟩

/-- C4 (amended): when every remote call returns an empty (`None`) result,
`getFinalData` sleeps `MAX_SLEEP * (attempt + 1)` — the strictly increasing
sequence 6, 12, 18, 24, 30 — before each re-issue of the `while` loop,
makes `1 + MAX_RETRIES = 6` calls in total, and raises an `IOError` that
aborts the whole multi-period request on its first sub-period (no partial
result, the cache directory untouched).  When every remote call raises a
transport exception instead, the wrapper sleeps the constant `MAX_SLEEP`
once, re-issues once, and the second exception propagates as-is after only
two attempts. -/
theorem getFinalData_retry_exhaustion (k configKey : String) (rie rw : Bool)
    (n : Nat) (alt : Bool) (kwp : KWP) (per sp0 : String) (rest : List String)
    (now : Int) (store : Store)
    (hper : kwp.period = some per) (hp2 : kwp.partner2Code = some (some 0))
    (hsplit : split_period per n = sp0 :: rest) :
    getFinalData [k] configKey false rie rw n alt kwp
        (fun _ _ => .retNone) now store =
      ⟨.error (.ioError "Empty result in getFinalData after 5 retries"), store,
        [.netCall [k] { kwp with period := some sp0 } 0, .sleep 6,
         .netCall [k] { kwp with period := some sp0 } 1, .sleep 12,
         .netCall [k] { kwp with period := some sp0 } 2, .sleep 18,
         .netCall [k] { kwp with period := some sp0 } 3, .sleep 24,
         .netCall [k] { kwp with period := some sp0 } 4, .sleep 30,
         .netCall [k] { kwp with period := some sp0 } 5]⟩ ∧
    ((6:Nat) < 12 ∧ 12 < 18 ∧ 18 < 24 ∧ 24 < 30) ∧
    getFinalData [k] configKey false rie rw n alt kwp
        (fun _ _ => .raise) now store =
      ⟨.error .uncaughtException, store,
        [.netCall [k] { kwp with period := some sp0 } 0, .sleep MAX_SLEEP,
         .netCall [k] { kwp with period := some sp0 } 1]⟩ := by
  have hkwb : (if kwp.partner2Code = none
      then { kwp with partner2Code := some (some 0) } else kwp) = kwp :=
    if_neg (by simp [hp2])
  refine ⟨?_, by decide, ?_⟩
  · simp only [getFinalData]
    rw [hkwb]
    simp only [gfdRun]
    rw [hper]
    dsimp only
    rw [hsplit]
    rfl
  · simp only [getFinalData]
    rw [hkwb]
    simp only [gfdRun]
    rw [hper]
    dsimp only
    rw [hsplit]
    rfl

/-- Witness for C4 (amended) at a concrete one-sub-period request. -/
theorem getFinalData_retry_exhaustion_witness :
    (KWP.period kwpOneSub = some "2020" ∧
      KWP.partner2Code kwpOneSub = some (some 0) ∧
      split_period "2020" 12 = ["2020"]) ∧
    getFinalData ["k"] "cfg" false true false 12 false kwpOneSub
        (fun _ _ => .retNone) 0 [] =
      ⟨.error (.ioError "Empty result in getFinalData after 5 retries"), [],
        [.netCall ["k"] { kwpOneSub with period := some "2020" } 0, .sleep 6,
         .netCall ["k"] { kwpOneSub with period := some "2020" } 1, .sleep 12,
         .netCall ["k"] { kwpOneSub with period := some "2020" } 2, .sleep 18,
         .netCall ["k"] { kwpOneSub with period := some "2020" } 3, .sleep 24,
         .netCall ["k"] { kwpOneSub with period := some "2020" } 4, .sleep 30,
         .netCall ["k"] { kwpOneSub with period := some "2020" } 5]⟩ :=
  ⟨⟨rfl, rfl, by decide⟩,
   (getFinalData_retry_exhaustion "k" "cfg" true false 12 false kwpOneSub
     "2020" "2020" [] 0 [] rfl rfl (by decide)).1⟩

/-! ## C3: cache idempotence (lines 584-611 and 649-651) -/

theorem findEntry_cons_self (e : CacheKey × (Int × Dataset)) (s' : Store)
    (k' : CacheKey) (h : e.1 = k') : findEntry (e :: s') k' = some e.2 := by
  simp only [findEntry]
  rw [List.find?_cons_of_pos _ (by simp [h])]
  rfl

theorem findEntry_cons_ne (e : CacheKey × (Int × Dataset)) (s' : Store)
    (k' : CacheKey) (h : ¬ e.1 = k') : findEntry (e :: s') k' = findEntry s' k' := by
  simp only [findEntry]
  rw [List.find?_cons_of_neg _ (by simp [h])]

theorem findEntry_erase_ne (s : Store) (k k' : CacheKey) (h : k' ≠ k) :
    findEntry (eraseEntry s k) k' = findEntry s k' := by
  induction s with
  | nil => rfl
  | cons e s' ih =>
    by_cases he : e.1 = k
    · rw [show eraseEntry (e :: s') k = eraseEntry s' k from by
        simp [eraseEntry, List.filter_cons, he]]
      rw [ih, findEntry_cons_ne e s' k' (by rw [he]; exact Ne.symm h)]
    · rw [show eraseEntry (e :: s') k = e :: eraseEntry s' k from by
        simp [eraseEntry, List.filter_cons, he]]
      by_cases hpe : e.1 = k'
      · rw [findEntry_cons_self e _ k' hpe, findEntry_cons_self e s' k' hpe]
      · rw [findEntry_cons_ne e _ k' hpe, findEntry_cons_ne e s' k' hpe, ih]

theorem findEntry_insert_self (s : Store) (k : CacheKey) (v : Int × Dataset) :
    findEntry (insertEntry s k v) k = some v :=
  findEntry_cons_self (k, v) (eraseEntry s k) k rfl

theorem findEntry_insert_ne (s : Store) (k k' : CacheKey) (v : Int × Dataset)
    (h : k' ≠ k) : findEntry (insertEntry s k v) k' = findEntry s k' := by
  rw [insertEntry, findEntry_cons_ne (k, v) _ k' (Ne.symm h)]
  exact findEntry_erase_ne s k k' h

theorem mkKey_inj (kwb : KWP) (alt : Bool) (sp sp' : String)
    (h : mkKey kwb alt sp = mkKey kwb alt sp') : sp = sp' := by
  have h2 := congrArg (fun k : CacheKey => k.1.period) h
  simpa [mkKey] using h2

theorem netCallCount_cons_net (pos : List String) (kw : KWP) (i : Nat)
    (evs : List Event) :
    netCallCount (.netCall pos kw i :: evs) = netCallCount evs + 1 := by
  simp [netCallCount, List.filter_cons, isNetCall]

theorem range_shift_flatten (g : Nat → Dataset) (L c : Nat) :
    ((List.range (L + 1)).map (fun j => g (c + j))).flatten
      = g c ++ ((List.range L).map (fun j => g (c + 1 + j))).flatten := by
  rw [List.range_succ_eq_map, List.map_cons, List.map_map, List.flatten_cons]
  congr 2
  apply List.map_congr_left
  intro j _
  show g (c + (j + 1)) = g (c + 1 + j)
  congr 1
  omega

theorem map_indexOf_eq_range (g : Nat → Dataset) (sps : List String)
    (h : sps.Nodup) :
    sps.map (fun sp => g (sps.indexOf sp)) = (List.range sps.length).map g := by
  induction sps generalizing g with
  | nil => rfl
  | cons sp rest ih =>
    obtain ⟨hnm, hnd⟩ := List.nodup_cons.mp h
    rw [List.map_cons, List.indexOf_cons_self, List.length_cons,
      List.range_succ_eq_map, List.map_cons, List.map_map]
    congr 1
    have hcongr : rest.map (fun sp' => g ((sp :: rest).indexOf sp'))
        = rest.map (fun sp' => (fun j => g (j + 1)) (rest.indexOf sp')) := by
      apply List.map_congr_left
      intro sp' hsp'
      have hne : sp ≠ sp' := fun he => hnm (he ▸ hsp')
      rw [List.indexOf_cons_ne _ hne]
    rw [hcongr, ih (fun j => g (j + 1)) hnd]
    apply List.map_congr_left
    intro j _
    rfl

/-- One sub-period step of the loop on a cache miss with a fetcher that
immediately returns `D calls`. -/
theorem runSub_step_fresh (rie alt : Bool) (pos : List String) (now : Int)
    (kwb : KWP) (D : Nat → Dataset) (sp : String) (rest : List String)
    (temp : TempVar) (df : Dataset) (store : Store) (calls : Nat)
    (hf : findEntry store (mkKey kwb alt sp) = none) (hne : D calls ≠ []) :
    runSubperiods true rie alt (fun _ i => .ret (D i)) pos now kwb
      (sp :: rest) temp df store calls =
    ⟨(runSubperiods true rie alt (fun _ i => .ret (D i)) pos now kwb rest
        (.val (D calls)) (df ++ D calls)
        (insertEntry store (mkKey kwb alt sp) (now, D calls)) (calls + 1)).res,
     (runSubperiods true rie alt (fun _ i => .ret (D i)) pos now kwb rest
        (.val (D calls)) (df ++ D calls)
        (insertEntry store (mkKey kwb alt sp) (now, D calls)) (calls + 1)).store,
     (runSubperiods true rie alt (fun _ i => .ret (D i)) pos now kwb rest
        (.val (D calls)) (df ++ D calls)
        (insertEntry store (mkKey kwb alt sp) (now, D calls)) (calls + 1)).calls,
     .netCall pos { kwb with period := some sp } calls ::
       (runSubperiods true rie alt (fun _ i => .ret (D i)) pos now kwb rest
          (.val (D calls)) (df ++ D calls)
          (insertEntry store (mkKey kwb alt sp) (now, D calls)) (calls + 1)).events⟩ := by
  have hcc : cacheCheck true rie now (mkKey kwb alt sp) temp store
      = (.ok (temp, false), store) := by
    simp [cacheCheck, hf]
  simp only [runSubperiods]
  rw [hcc]
  dsimp only [fetchBlock, finishFetch, whileNone]
  rw [if_pos (List.length_pos.mpr hne)]
  simp

/-- One sub-period step of the loop on a valid, non-empty cache hit. -/
theorem runSub_step_hit (rie alt : Bool) (o : KWP → Nat → FetchResult)
    (pos : List String) (now : Int) (kwb : KWP) (sp : String)
    (rest : List String) (temp : TempVar) (df : Dataset) (store : Store)
    (calls : Nat) (m : Int) (d : Dataset)
    (hf : findEntry store (mkKey kwb alt sp) = some (m, d))
    (hval : now - m ≤ CACHE_VALID_DAYS * (24 * 3600)) (hne : d ≠ []) :
    runSubperiods true rie alt o pos now kwb (sp :: rest) temp df store calls =
      runSubperiods true rie alt o pos now kwb rest (.val d) (df ++ d)
        store calls := by
  have hlen : ¬ d.length = 0 := by simp [hne]
  have hcc : cacheCheck true rie now (mkKey kwb alt sp) temp store
      = (.ok (.val d, true), store) := by
    simp only [cacheCheck, hf, if_true]
    rw [if_pos hval]
    simp [hlen]
  simp only [runSubperiods]
  rw [hcc]
  dsimp only
  rw [if_pos (List.length_pos.mpr hne)]
  simp

/-- The loop over fresh (uncached) sub-periods with a fetcher that returns
`D i` at global call index `i`: one network call per sub-period, all
results concatenated in order, each cached under its fingerprint with
modification time `now`. -/
theorem runSub_fresh (rie alt : Bool) (pos : List String) (now : Int)
    (kwb : KWP) (D : Nat → Dataset) (hD : ∀ i, D i ≠ []) :
    ∀ (sps : List String) (temp : TempVar) (df : Dataset) (store : Store)
      (calls : Nat), sps.Nodup →
      (∀ sp ∈ sps, findEntry store (mkKey kwb alt sp) = none) →
      (runSubperiods true rie alt (fun _ i => .ret (D i)) pos now kwb
          sps temp df store calls).res
        = .ok (df ++ ((List.range sps.length).map (fun j => D (calls + j))).flatten) ∧
      (runSubperiods true rie alt (fun _ i => .ret (D i)) pos now kwb
          sps temp df store calls).calls = calls + sps.length ∧
      netCallCount (runSubperiods true rie alt (fun _ i => .ret (D i)) pos now kwb
          sps temp df store calls).events = sps.length ∧
      (∀ sp ∈ sps, findEntry (runSubperiods true rie alt (fun _ i => .ret (D i))
          pos now kwb sps temp df store calls).store (mkKey kwb alt sp)
        = some (now, D (calls + sps.indexOf sp))) ∧
      (∀ key, (∀ sp ∈ sps, key ≠ mkKey kwb alt sp) →
        findEntry (runSubperiods true rie alt (fun _ i => .ret (D i))
          pos now kwb sps temp df store calls).store key = findEntry store key) := by
  intro sps
  induction sps with
  | nil =>
    intro temp df store calls _ _
    refine ⟨by simp [runSubperiods], by simp [runSubperiods],
      by simp [runSubperiods, netCallCount], by simp, fun key _ => by simp [runSubperiods]⟩
  | cons sp rest ih =>
    intro temp df store calls hnd hfresh
    obtain ⟨hnm, hnd'⟩ := List.nodup_cons.mp hnd
    have hne : D calls ≠ [] := hD calls
    rw [runSub_step_fresh rie alt pos now kwb D sp rest temp df store calls
      (hfresh sp (by simp)) hne]
    have hofresh : ∀ sp' ∈ rest,
        findEntry (insertEntry store (mkKey kwb alt sp) (now, D calls))
          (mkKey kwb alt sp') = none := by
      intro sp' hsp'
      have hkne : mkKey kwb alt sp' ≠ mkKey kwb alt sp := by
        intro h
        exact hnm ((mkKey_inj kwb alt sp' sp h) ▸ hsp')
      rw [findEntry_insert_ne store _ _ _ hkne]
      exact hfresh sp' (List.mem_cons_of_mem _ hsp')
    obtain ⟨ihres, ihcalls, ihcount, ihfind, ihpres⟩ :=
      ih (.val (D calls)) (df ++ D calls)
        (insertEntry store (mkKey kwb alt sp) (now, D calls)) (calls + 1)
        hnd' hofresh
    refine ⟨?_, ?_, ?_, ?_, ?_⟩
    · show (runSubperiods true rie alt (fun _ i => .ret (D i)) pos now kwb rest
          (.val (D calls)) (df ++ D calls)
          (insertEntry store (mkKey kwb alt sp) (now, D calls)) (calls + 1)).res = _
      rw [ihres, List.length_cons, range_shift_flatten D rest.length calls,
        ← List.append_assoc]
    · show (runSubperiods true rie alt (fun _ i => .ret (D i)) pos now kwb rest
          (.val (D calls)) (df ++ D calls)
          (insertEntry store (mkKey kwb alt sp) (now, D calls)) (calls + 1)).calls = _
      rw [ihcalls, List.length_cons]
      omega
    · show netCallCount (.netCall pos { kwb with period := some sp } calls ::
        (runSubperiods true rie alt (fun _ i => .ret (D i)) pos now kwb rest
          (.val (D calls)) (df ++ D calls)
          (insertEntry store (mkKey kwb alt sp) (now, D calls)) (calls + 1)).events) = _
      rw [netCallCount_cons_net, ihcount, List.length_cons]
    · intro sp' hsp'
      rcases List.mem_cons.mp hsp' with rfl | hsp'
      · have hpres := ihpres (mkKey kwb alt sp') (by
          intro sp'' hsp''
          intro h
          exact hnm ((mkKey_inj kwb alt sp' sp'' h) ▸ hsp''))
        show findEntry (runSubperiods true rie alt (fun _ i => .ret (D i)) pos now kwb
          rest (.val (D calls)) (df ++ D calls)
          (insertEntry store (mkKey kwb alt sp') (now, D calls)) (calls + 1)).store
            (mkKey kwb alt sp') = _
        rw [hpres, findEntry_insert_self, List.indexOf_cons_self, Nat.add_zero]
      · have hfd := ihfind sp' hsp'
        show findEntry (runSubperiods true rie alt (fun _ i => .ret (D i)) pos now kwb
          rest (.val (D calls)) (df ++ D calls)
          (insertEntry store (mkKey kwb alt sp) (now, D calls)) (calls + 1)).store
            (mkKey kwb alt sp') = _
        rw [hfd]
        have hspne : sp ≠ sp' := fun he => hnm (he ▸ hsp')
        rw [List.indexOf_cons_ne _ hspne]
        have harith : calls + 1 + rest.indexOf sp' = calls + (rest.indexOf sp').succ := by
          omega
        rw [harith]
    · intro key hkey
      show findEntry (runSubperiods true rie alt (fun _ i => .ret (D i)) pos now kwb
        rest (.val (D calls)) (df ++ D calls)
        (insertEntry store (mkKey kwb alt sp) (now, D calls)) (calls + 1)).store key = _
      rw [ihpres key (fun sp' h' => hkey sp' (List.mem_cons_of_mem _ h')),
        findEntry_insert_ne store _ _ _ (hkey sp (by simp))]

/-- The loop over sub-periods that all hit valid non-empty cache entries:
no network call, no sleep, no store change; the result is the concatenation
of the cached datasets in sub-period order. -/
theorem runSub_hits (rie alt : Bool) (o : KWP → Nat → FetchResult)
    (pos : List String) (now : Int) (kwb : KWP) (st : Store)
    (m : String → Int) (f : String → Dataset) :
    ∀ (sps : List String) (temp : TempVar) (df : Dataset) (calls : Nat),
      (∀ sp ∈ sps, findEntry st (mkKey kwb alt sp) = some (m sp, f sp)) →
      (∀ sp ∈ sps, f sp ≠ []) →
      (∀ sp ∈ sps, now - m sp ≤ CACHE_VALID_DAYS * (24 * 3600)) →
      runSubperiods true rie alt o pos now kwb sps temp df st calls =
        ⟨.ok (df ++ (sps.map f).flatten), st, calls, []⟩ := by
  intro sps
  induction sps with
  | nil =>
    intro temp df calls _ _ _
    simp [runSubperiods]
  | cons sp rest ih =>
    intro temp df calls hfind hne hval
    rw [runSub_step_hit rie alt o pos now kwb sp rest temp df st calls
      (m sp) (f sp) (hfind sp (by simp)) (hval sp (by simp)) (hne sp (by simp))]
    rw [ih (.val (f sp)) (df ++ f sp) calls
      (fun sp' h' => hfind sp' (List.mem_cons_of_mem _ h'))
      (fun sp' h' => hne sp' (List.mem_cons_of_mem _ h'))
      (fun sp' h' => hval sp' (List.mem_cons_of_mem _ h'))]
    rw [List.map_cons, List.flatten_cons, List.append_assoc]

/-- C3 (amended): starting from an empty cache, if every fetch of the first
call immediately returns a non-empty dataset and the sub-periods are
distinct, then the first call performs exactly one network call per
sub-period, and a second identical call within the validity window performs
no network call at all, returns a dataset equal to the first call's result
(served from the cache files the first call wrote), and leaves the cache
unchanged. -/
theorem getFinalData_idempotent (k configKey : String) (rie rw : Bool) (n : Nat)
    (alt : Bool) (kwp : KWP) (per : String) (D : Nat → Dataset)
    (o2 : KWP → Nat → FetchResult) (now1 now2 : Int)
    (hper : kwp.period = some per) (hp2 : kwp.partner2Code = some (some 0))
    (hD : ∀ i, D i ≠ []) (hnd : (split_period per n).Nodup)
    (hvalid : now2 - now1 ≤ CACHE_VALID_DAYS * (24 * 3600)) :
    netCallCount (getFinalData [k] configKey true rie rw n alt kwp
      (fun _ i => .ret (D i)) now1 []).events = (split_period per n).length ∧
    netCallCount (getFinalData [k] configKey true rie rw n alt kwp o2 now2
      (getFinalData [k] configKey true rie rw n alt kwp
        (fun _ i => .ret (D i)) now1 []).store).events = 0 ∧
    (getFinalData [k] configKey true rie rw n alt kwp o2 now2
      (getFinalData [k] configKey true rie rw n alt kwp
        (fun _ i => .ret (D i)) now1 []).store).result =
      (getFinalData [k] configKey true rie rw n alt kwp
        (fun _ i => .ret (D i)) now1 []).result ∧
    (getFinalData [k] configKey true rie rw n alt kwp o2 now2
      (getFinalData [k] configKey true rie rw n alt kwp
        (fun _ i => .ret (D i)) now1 []).store).store =
      (getFinalData [k] configKey true rie rw n alt kwp
        (fun _ i => .ret (D i)) now1 []).store := by
  have hkwb : (if kwp.partner2Code = none
      then { kwp with partner2Code := some (some 0) } else kwp) = kwp :=
    if_neg (by simp [hp2])
  have e1 : ∀ (o : KWP → Nat → FetchResult) (now : Int) (st : Store),
      getFinalData [k] configKey true rie rw n alt kwp o now st
        = gfdRun [k] true rie rw n alt kwp o now st := by
    intro o now st
    simp only [getFinalData]
    rw [hkwb]
  have e2 : ∀ (o : KWP → Nat → FetchResult) (now : Int) (st : Store),
      gfdRun [k] true rie rw n alt kwp o now st =
        ⟨match (runSubperiods true rie alt o [k] now kwp (split_period per n)
            .unbound [] st 0).res with
          | .error e => .error e
          | .ok df => .ok (postProcess kwp rw df),
         (runSubperiods true rie alt o [k] now kwp (split_period per n)
            .unbound [] st 0).store,
         (runSubperiods true rie alt o [k] now kwp (split_period per n)
            .unbound [] st 0).events⟩ := by
    intro o now st
    simp only [gfdRun]
    rw [hper]
  obtain ⟨Ares, Acalls, Acount, Afind, Apres⟩ :=
    runSub_fresh rie alt [k] now1 kwp D hD (split_period per n) .unbound [] [] 0
      hnd (fun sp _ => rfl)
  have hB := runSub_hits rie alt o2 [k] now2 kwp
    (runSubperiods true rie alt (fun _ i => .ret (D i)) [k] now1 kwp
      (split_period per n) .unbound [] [] 0).store
    (fun _ => now1) (fun sp => D (0 + (split_period per n).indexOf sp))
    (split_period per n) .unbound [] 0
    (fun sp hsp => Afind sp hsp) (fun sp _ => hD _) (fun sp _ => hvalid)
  simp only [e1, e2]
  rw [hB]
  refine ⟨Acount, rfl, ?_, rfl⟩
  rw [Ares]
  have hmap := map_indexOf_eq_range (fun j => D (0 + j)) (split_period per n) hnd
  rw [hmap]

/-- Counterexample to C3 as stated: the first call returns a non-empty
dataset (so the claim's proviso holds), yet the two calls together perform
three network calls for two sub-periods — the second sub-period's cached
result is empty, and `retry_if_empty` (on by default) deletes it and
refetches — and the second call's dataset differs from the first's. -/
theorem getFinalData_idempotence_counterexample :
    (getFinalData ["k"] "cfg" true true false 1 false twoSubKwp cexO1 0 []).result =
      .ok [⟨226, 10⟩] ∧
    netCallCount (getFinalData ["k"] "cfg" true true false 1 false twoSubKwp
      cexO1 0 []).events = 2 ∧
    netCallCount (getFinalData ["k"] "cfg" true true false 1 false twoSubKwp
      cexO2 0 (getFinalData ["k"] "cfg" true true false 1 false twoSubKwp
        cexO1 0 []).store).events = 1 ∧
    (getFinalData ["k"] "cfg" true true false 1 false twoSubKwp cexO2 0
      (getFinalData ["k"] "cfg" true true false 1 false twoSubKwp
        cexO1 0 []).store).result = .ok [⟨226, 10⟩, ⟨620, 99⟩] ∧
    (split_period "2020,2021" 1).length = 2 ∧ ¬ (2 + 1 = 2) ∧
    (getFinalData ["k"] "cfg" true true false 1 false twoSubKwp cexO2 0
      (getFinalData ["k"] "cfg" true true false 1 false twoSubKwp
        cexO1 0 []).store).result ≠
      (getFinalData ["k"] "cfg" true true false 1 false twoSubKwp
        cexO1 0 []).result :=
  ⟨by decide, by decide, by decide, by decide, by decide, by decide, by decide⟩

/-- Witness for C3 (amended) at a concrete two-sub-period request. -/
theorem getFinalData_idempotent_witness :
    ((split_period "2020,2021" 1).Nodup ∧
      (0 : Int) - 0 ≤ CACHE_VALID_DAYS * (24 * 3600)) ∧
    (netCallCount (getFinalData ["k"] "cfg" true true false 1 false twoSubKwp
      (fun _ i => .ret (cexD i)) 0 []).events = (split_period "2020,2021" 1).length ∧
    netCallCount (getFinalData ["k"] "cfg" true true false 1 false twoSubKwp
      (fun _ _ => .retNone) 0 (getFinalData ["k"] "cfg" true true false 1 false
        twoSubKwp (fun _ i => .ret (cexD i)) 0 []).store).events = 0 ∧
    (getFinalData ["k"] "cfg" true true false 1 false twoSubKwp
      (fun _ _ => .retNone) 0 (getFinalData ["k"] "cfg" true true false 1 false
        twoSubKwp (fun _ i => .ret (cexD i)) 0 []).store).result =
      (getFinalData ["k"] "cfg" true true false 1 false twoSubKwp
        (fun _ i => .ret (cexD i)) 0 []).result ∧
    (getFinalData ["k"] "cfg" true true false 1 false twoSubKwp
      (fun _ _ => .retNone) 0 (getFinalData ["k"] "cfg" true true false 1 false
        twoSubKwp (fun _ i => .ret (cexD i)) 0 []).store).store =
      (getFinalData ["k"] "cfg" true true false 1 false twoSubKwp
        (fun _ i => .ret (cexD i)) 0 []).store) :=
  ⟨⟨by decide, by decide⟩,
   getFinalData_idempotent "k" "cfg" true false 1 false twoSubKwp "2020,2021"
     cexD (fun _ _ => .retNone) 0 0 rfl rfl (fun i => List.cons_ne_nil _ _)
     (by decide) (by decide)⟩

theorem zip_get? {α β : Type} :
    ∀ (xs : List α) (ys : List β) (i : Nat) (x : α) (y : β),
      xs.get? i = some x → ys.get? i = some y →
      (xs.zip ys).get? i = some (x, y) := by
  intro xs
  induction xs with
  | nil => intro ys i x y hx _; simp at hx
  | cons a xs ih =>
    intro ys i x y hx hy
    cases ys with
    | nil => simp at hy
    | cons b ys =>
      cases i with
      | zero =>
        rw [List.get?_cons_zero] at hx hy
        rw [Option.some.injEq] at hx hy
        subst hx
        subst hy
        rw [List.zip_cons_cons, List.get?_cons_zero]
      | succ i =>
        rw [List.get?_cons_succ] at hx hy
        rw [List.zip_cons_cons, List.get?_cons_succ]
        exact ih ys i x y hx hy

theorem colDiv_get? (xs ys : List ℚ) (i : Nat) (x y : ℚ)
    (hx : xs.get? i = some x) (hy : ys.get? i = some y) :
    (colDiv xs ys).get? i = some (x / y) := by
  rw [colDiv, List.get?_map, zip_get? xs ys i x y hx hy]
  rfl

/-- C5 (amended): for row `i` of the input, whose full group (rows sharing
the `groupby` key) sums to `S` and whose immediate parent group (rows
sharing the `groupby[:-1]` key) sums to `P`, `total_rank_perc` assigns
`perc = row_value / P` — the share of the parent group, not of the full
group — and `upper_perc = S / P`. -/
theorem total_rank_perc_correct (df : List DRow) (groupby : List String)
    (col pfx : String) (i : Nat) (r : DRow) (S P : ℚ)
    (hr : df.get? i = some r)
    (hS : ((df.filter (fun s => decide (keyOf groupby s = keyOf groupby r))).map
      (fun s => s col)).sum = S)
    (hP : ((df.filter (fun s => decide (keyOf groupby.dropLast s
      = keyOf groupby.dropLast r))).map (fun s => s col)).sum = P) :
    (total_rank_perc df groupby col pfx none none true).perc.get? i = some (r col / P) ∧
    (total_rank_perc df groupby col pfx none none true).upper_perc.get? i = some (S / P) := by
  have hsubP : (subtotal df groupby.dropLast col).get? i = some P := by
    rw [subtotal, List.get?_map, hr]
    simp [hP]
  have hsubS : (subtotal df groupby col).get? i = some S := by
    rw [subtotal, List.get?_map, hr]
    simp [hS]
  have hval : (df.map (fun s => s col)).get? i = some (r col) := by
    rw [List.get?_map, hr]
    rfl
  constructor
  · show (colDiv (df.map (fun s => s col))
      (subtotal df groupby.dropLast col)).get? i = _
    exact colDiv_get? _ _ i _ _ hval hsubP
  · show (colDiv (subtotal df groupby col)
      (subtotal df groupby.dropLast col)).get? i = _
    exact colDiv_get? _ _ i _ _ hsubS hsubP

theorem keyB2_AA : decide (keyOf ["a", "b"] rowA = keyOf ["a", "b"] rowA) = true := by rfl

theorem keyB2_BA : decide (keyOf ["a", "b"] rowB = keyOf ["a", "b"] rowA) = false := by rfl

theorem keyB2_AB : decide (keyOf ["a", "b"] rowA = keyOf ["a", "b"] rowB) = false := by rfl

theorem keyB2_BB : decide (keyOf ["a", "b"] rowB = keyOf ["a", "b"] rowB) = true := by rfl

theorem keyA1_AA : decide (keyOf ["a"] rowA = keyOf ["a"] rowA) = true := by rfl

theorem keyA1_BA : decide (keyOf ["a"] rowB = keyOf ["a"] rowA) = true := by rfl

theorem keyA1_AB : decide (keyOf ["a"] rowA = keyOf ["a"] rowB) = true := by rfl

theorem keyA1_BB : decide (keyOf ["a"] rowB = keyOf ["a"] rowB) = true := by rfl

/-- Counterexample to C5 as stated: in `exDf`, grouped by `["a", "b"]` on
value column `v`, the first row's full group sums to `S = 1`, and the
claim demands `perc = row_value / S = 1`; the code computes
`perc = row_value / parent_sum = 1/4`. -/
theorem total_rank_perc_claim_counterexample :
    ((exDf.filter (fun s => decide (keyOf ["a", "b"] s = keyOf ["a", "b"] rowA))).map
      (fun s => s "v")).sum = 1 ∧
    rowA "v" = 1 ∧
    (total_rank_perc exDf ["a", "b"] "v" "t" none none true).perc.get? 0 = some (1 / 4) ∧
    ¬ ((1 : ℚ) / 4 = 1 / 1) := by
  refine ⟨?_, ?_, ?_, ?_⟩
  · norm_num [exDf, List.filter, keyB2_AA, keyB2_BA, rowA]
  · norm_num [rowA]
  · norm_num [total_rank_perc, colDiv, subtotal, exDf, List.filter, List.zip,
      List.dropLast, keyA1_AA, keyA1_BA, keyA1_AB, keyA1_BB, rowA, rowB]
  · norm_num

/-- Witness for C5 (amended) on the concrete example. -/
theorem total_rank_perc_correct_witness :
    (exDf.get? 0 = some rowA ∧
      ((exDf.filter (fun s => decide (keyOf ["a", "b"] s = keyOf ["a", "b"] rowA))).map
        (fun s => s "v")).sum = 1 ∧
      ((exDf.filter (fun s => decide (keyOf (["a", "b"] : List String).dropLast s
        = keyOf (["a", "b"] : List String).dropLast rowA))).map
        (fun s => s "v")).sum = 4) ∧
    (total_rank_perc exDf ["a", "b"] "v" "t" none none true).perc.get? 0 = some (rowA "v" / 4) ∧
    (total_rank_perc exDf ["a", "b"] "v" "t" none none true).upper_perc.get? 0 = some (1 / 4) :=
  ⟨⟨rfl,
    by norm_num [exDf, List.filter, keyB2_AA, keyB2_BA, rowA],
    by norm_num [exDf, List.filter, List.dropLast, keyA1_AA, keyA1_BA, rowA, rowB]⟩,
   total_rank_perc_correct exDf ["a", "b"] "v" "t" 0 rowA 1 4 rfl
     (by norm_num [exDf, List.filter, keyB2_AA, keyB2_BA, rowA])
     (by norm_num [exDf, List.filter, List.dropLast, keyA1_AA, keyA1_BA, rowA, rowB])⟩

theorem isPrefixOf_append_self (l t : List Char) : l.isPrefixOf (l ++ t) = true := by
  induction l with
  | nil => simp [List.isPrefixOf]
  | cons a l ih => simp [List.isPrefixOf, ih]

theorem isPrefixOf_append_indep (pat : List Char) :
    ∀ (u t1 t2 : List Char), pat.length ≤ u.length →
      pat.isPrefixOf (u ++ t1) = pat.isPrefixOf (u ++ t2) := by
  induction pat with
  | nil => intro u t1 t2 _; simp [List.isPrefixOf]
  | cons p ps ih =>
    intro u t1 t2 hlen
    cases u with
    | nil => simp at hlen
    | cons a u' =>
      show (p == a && ps.isPrefixOf (u' ++ t1)) = (p == a && ps.isPrefixOf (u' ++ t2))
      exact congrArg (fun b => p == a && b) (ih u' t1 t2 (by simpa using hlen))

theorem replaceFrom_append_indep (pat repl : List Char) (hne : pat ≠ []) :
    ∀ (P t1 t2 : List Char),
      replaceFrom pat repl (P ++ (pat ++ t1))
        = replaceFrom pat repl (P ++ (pat ++ t2)) := by
  intro P
  induction P with
  | nil =>
    intro t1 t2
    cases pat with
    | nil => exact absurd rfl hne
    | cons p ps =>
      simp only [List.nil_append]
      rw [show replaceFrom (p :: ps) repl ((p :: ps) ++ t1) = repl from by
          simp [replaceFrom, isPrefixOf_append_self],
        show replaceFrom (p :: ps) repl ((p :: ps) ++ t2) = repl from by
          simp [replaceFrom, isPrefixOf_append_self]]
  | cons c P' ih =>
    intro t1 t2
    have hsame : pat.isPrefixOf ((c :: P') ++ (pat ++ t1))
        = pat.isPrefixOf ((c :: P') ++ (pat ++ t2)) := by
      have h3 : (c :: P') ++ (pat ++ t1) = ((c :: P') ++ pat) ++ t1 := by simp
      have h4 : (c :: P') ++ (pat ++ t2) = ((c :: P') ++ pat) ++ t2 := by simp
      rw [h3, h4]
      exact isPrefixOf_append_indep pat ((c :: P') ++ pat) t1 t2
        (by simp only [List.length_append, List.length_cons]; omega)
    show (if pat.isPrefixOf ((c :: P') ++ (pat ++ t1)) = true then repl
        else c :: replaceFrom pat repl (P' ++ (pat ++ t1))) =
      (if pat.isPrefixOf ((c :: P') ++ (pat ++ t2)) = true then repl
        else c :: replaceFrom pat repl (P' ++ (pat ++ t2)))
    rw [hsame]
    by_cases hp : pat.isPrefixOf ((c :: P') ++ (pat ++ t2)) = true
    · rw [if_pos hp, if_pos hp]
    · rw [if_neg hp, if_neg hp, ih t1 t2]

/-- C8: the logger emits, besides the base URL, exactly the first 8
characters of the key — a prefix of length at most 8 — and the sanitized
URL echo is identical for any two key values: the echo carries no
information about the credential, its value being replaced entirely by
`subscription-key=HIDDEN`. -/
theorem api_key_never_cleartext (k k1 k2 : String)
    (base reporterCode period partnerCode partner2CodePar cmdCode flowCode
      customsCode : String) :
    (get_url (some k)).2 =
      (if k = "APIKEYHERE" then ["baseURL: " ++ BASE_URL_PREVIEW]
       else ["baseURL: " ++ BASE_URL_API, "APIKEY: " ++ pySlice k 8]) ∧
    (pySlice k 8).data.length ≤ 8 ∧
    (∃ t, (pySlice k 8).data ++ t = k.data) ∧
    sanitizeUrl (requestUrl base (buildParams reporterCode period partnerCode
      partner2CodePar cmdCode flowCode customsCode k1)) =
    sanitizeUrl (requestUrl base (buildParams reporterCode period partnerCode
      partner2CodePar cmdCode flowCode customsCode k2)) := by
  refine ⟨?_, ?_, ?_, ?_⟩
  · by_cases hk : k = "APIKEYHERE"
    · simp [get_url, hk]
    · simp [get_url, hk]
  · simp only [pySlice]
    simp [List.length_take]
  · exact ⟨k.data.drop 8, List.take_append_drop 8 k.data⟩
  · have hdata : ∀ kk : String,
        (requestUrl base (buildParams reporterCode period partnerCode
          partner2CodePar cmdCode flowCode customsCode kk)).data =
        (base ++ "?" ++ ("reporterCode" ++ "=" ++ reporterCode ++ "&" ++
          ("period" ++ "=" ++ period ++ "&" ++
          ("partnerCode" ++ "=" ++ partnerCode ++ "&" ++
          ("partner2CodePar" ++ "=" ++ partner2CodePar ++ "&" ++
          ("cmdCode" ++ "=" ++ cmdCode ++ "&" ++
          ("flowCode" ++ "=" ++ flowCode ++ "&" ++
          ("customsCode" ++ "=" ++ customsCode ++ "&")))))))).data
          ++ (subKeyPat ++ kk.data) := by
      intro kk
      show (base ++ "?" ++ encodeQuery (buildParams reporterCode period
        partnerCode partner2CodePar cmdCode flowCode customsCode kk)).data = _
      simp only [buildParams, encodeQuery]
      simp only [String.data_append, List.append_assoc, subKeyPat]
      rfl
    simp only [sanitizeUrl]
    rw [hdata k1, hdata k2,
      replaceFrom_append_indep subKeyPat hiddenRepl (by decide) _ k1.data k2.data]

end Comtrade
